import Mathlib

/-
Verification of the tmux git-status segment of the custom-segments repository.

The embedded code is segments/tmux/git.py together with its variant
home/.local/opt/custom_segments/segments/tmux/git.py; the two files share the
parser functions verbatim and differ only in the rendering methods, so the
parser is embedded once and both renderers are embedded side by side.

Modelling conventions:
- Python strings are List Char; str.split('\n') and str.split(' ') are
  pySplitChar, str.split() (whitespace, dropping empties) is pySplitWS.
- Python exceptions are the PyError type threaded through Except: a raised
  exception is Except.error, normal return is Except.ok.
- pathlib.Path values are kept as the path strings themselves.
- The subprocess layer of git_from_path is abstracted into a ProbeEnv record
  holding the directory-existence bit and each command's return code and
  decoded stdout, which is exactly the data the Python function consumes.
-/

set_option maxRecDepth 10000

/-! ## Python string primitives -/

/-- Python `str.startswith(c)` for a single-character needle. -/
def startsWith (c : Char) : List Char → Bool
  | [] => false
  | x :: _ => x == c

/-- Python `str.split(sep)` for a one-character separator: keeps empty
fields, and splitting the empty string yields one empty field. -/
def pySplitChar (sep : Char) : List Char → List (List Char)
  | [] => [[]]
  | c :: cs =>
    if c == sep then [] :: pySplitChar sep cs
    else
      match pySplitChar sep cs with
      | [] => [[c]]
      | r :: rs => (c :: r) :: rs

/-- The characters Python `str.split()` treats as whitespace. -/
def isWS (c : Char) : Bool :=
  c == ' ' || c == '\t' || c == '\n' || c == '\r' || c == '\x0b' || c == '\x0c'

/-- Helper for pySplitWS: accumulates the current field in reverse. -/
def pySplitWSAux : List Char → List Char → List (List Char)
  | [], acc => if acc.isEmpty then [] else [acc.reverse]
  | c :: cs, acc =>
    if isWS c then
      if acc.isEmpty then pySplitWSAux cs [] else acc.reverse :: pySplitWSAux cs []
    else pySplitWSAux cs (c :: acc)

/-- Python `str.split()` with no argument: split on runs of whitespace,
dropping empty fields. -/
def pySplitWS (s : List Char) : List (List Char) :=
  pySplitWSAux s []

/-- Python `sep.join(parts)`. -/
def joinWith (sep : List Char) : List (List Char) → List Char
  | [] => []
  | [l] => l
  | l :: ls => l ++ sep ++ joinWith sep ls

/-- Strip leading and trailing whitespace, as Python `int()` does before
parsing its argument. -/
def stripWS (s : List Char) : List Char :=
  (((s.dropWhile isWS).reverse.dropWhile isWS)).reverse

/-- Decimal value of a digit string. -/
def digitsVal (ds : List Char) : Nat :=
  ds.foldl (fun a c => a * 10 + (c.toNat - 48)) 0

/-! ## Python exceptions -/

/-- The exceptions the embedded code can raise: the two classes declared in
git.py plus the built-in ValueError and IndexError. -/
inductive PyError where
  | branchParse
  | parseErr
  | valueErr
  | indexErr
deriving DecidableEq, Repr

/-- Check of a nonempty all-digit string, shared by the sign branches of
pyInt. -/
def pyDigits (ds : List Char) : Except PyError Int :=
  if !ds.isEmpty && ds.all Char.isDigit then .ok ((digitsVal ds : Int))
  else .error .valueErr

/-- Python `int(s)`: strip surrounding whitespace, allow one optional sign,
then require a nonempty digit string; anything else raises ValueError.
(Underscore digit grouping is not modelled; no input here contains it.) -/
def pyInt (s : List Char) : Except PyError Int :=
  match stripWS s with
  | [] => .error .valueErr
  | c :: ds =>
    if c == '-' then (pyDigits ds).map Neg.neg
    else if c == '+' then pyDigits ds
    else pyDigits (c :: ds)

/-- Python `l[i]` for a nonnegative index: IndexError when out of range. -/
def pyIndex (l : List (List Char)) (i : Nat) : Except PyError (List Char) :=
  match l.get? i with
  | some v => .ok v
  | none => .error .indexErr

/-! ## Data model (git.py classes) -/

/-- Enum GitStatus. The Python method GitStatus.segment ends in a final
`else` arm that is reachable only when a value outside the three declared
members is passed in dynamically; that situation is modelled by the extra
constructor `other`. The parser never constructs `broken` or `other`. -/
inductive GitStatus where
  | clean
  | dirty
  | broken
  | other
deriving DecidableEq, Repr

/-- NamedTuple Branch. -/
structure Branch where
  head : List Char
  upstream : Option (List Char)
  ahead : Option Int
  behind : Option Int
deriving DecidableEq, Repr

/-- NamedTuple GitRepo. Paths are kept as their strings; stashed is the
nonnegative stash count. -/
structure GitRepo where
  branch : Branch
  staged : List (List Char)
  unstaged : List (List Char)
  untracked : List (List Char)
  ignored : List (List Char)
  stashed : Nat
  status : GitStatus
deriving DecidableEq, Repr

/-- A powerline segment dictionary. The draw_inner_divider key is optional
because red_segment in the segments/tmux variant omits it. -/
structure Seg where
  contents : List Char
  highlight_groups : List String
  draw_inner_divider : Option Bool
deriving DecidableEq, Repr

/-- The COLORS dict of home/.local/opt/custom_segments/segments/tmux/git.py. -/
def COLORS (k : String) : List String :=
  if k = "gitstatus_clean" then ["git:branch_clean"]
  else if k = "gitstatus_dirty" then ["git:branch_dirty"]
  else if k = "gitstatus_broken" then ["git:branch_broken"]
  else if k = "gitstatus_default" then ["git:branch_clean"]
  else if k = "branch" then ["git:branch_name"]
  else if k = "files" then ["git:files_info"]
  else if k = "stash" then ["git:files_info"]
  else if k = "red" then ["battery_full"]
  else []

/-- The nested COLORS['gitstatus'] dict of segments/tmux/git.py. -/
def COLORS2gitstatus (k : String) : List String :=
  if k = "clean" then ["branch:clean"]
  else if k = "dirty" then ["branch:dirty"]
  else if k = "broken" then ["branch:broken"]
  else if k = "default" then ["branch:clean"]
  else []

/-- The flat keys of the COLORS dict of segments/tmux/git.py. -/
def COLORS2 (k : String) : List String :=
  if k = "branch" then ["branch:name"]
  else if k = "files" then ["files:info"]
  else if k = "stash" then ["files:info"]
  else if k = "red" then ["battery_full"]
  else []

/-! ## Parser (identical in both source variants) -/

/-- Loop state of parse_branch_data: the pass-through lines collected so far
and the four branch fields, all initially unset. -/
structure BranchScan where
  new_data : List (List Char)
  head : Option (List Char)
  upstream : Option (List Char)
  ahead : Option Int
  behind : Option Int
deriving DecidableEq, Repr

/-- The list comprehension `[int(i[1:]) for i in branch_data]`: evaluates
left to right, the first exception aborting the whole list. -/
def mapExcept (f : List Char → Except PyError Int) :
    List (List Char) → Except PyError (List Int)
  | [] => .ok []
  | x :: xs =>
    match f x with
    | .error e => .error e
    | .ok v =>
      match mapExcept f xs with
      | .error e => .error e
      | .ok vs => .ok (v :: vs)

/-- One iteration of the parse_branch_data loop. A `#` line is split on
single spaces and unpacked as `_, branch_prefix, *branch_data`; fewer than
two fields raises ValueError. branch.head and branch.upstream read
branch_data[0] (IndexError when empty); branch.ab maps int(i[1:]) over
branch_data and unpacks exactly two results (ValueError otherwise).
Unrecognized keys fall through unchanged; non-# lines are appended to
new_data. -/
def branchLine (st : BranchScan) (line : List Char) : Except PyError BranchScan :=
  if startsWith '#' line then
    match pySplitChar ' ' line with
    | [] => .error .valueErr
    | [_] => .error .valueErr
    | _ :: key :: rest =>
      if key = "branch.head".toList then
        match rest with
        | [] => .error .indexErr
        | x :: _ => .ok { st with head := some x }
      else if key = "branch.upstream".toList then
        match rest with
        | [] => .error .indexErr
        | y :: _ => .ok { st with upstream := some y }
      else if key = "branch.ab".toList then
        match mapExcept (fun i => pyInt (i.drop 1)) rest with
        | .error e => .error e
        | .ok [a, b] => .ok { st with ahead := some a, behind := some b }
        | .ok _ => .error .valueErr
      else .ok st
  else .ok { st with new_data := st.new_data ++ [line] }

/-- The `for line in data` loop of parse_branch_data. -/
def branchScan : List (List Char) → BranchScan → Except PyError BranchScan
  | [], st => .ok st
  | l :: ls, st =>
    match branchLine st l with
    | .error e => .error e
    | .ok st2 => branchScan ls st2

/-- parse_branch_data: reject empty input, scan all lines, then fail with
BranchParseError when head was never set, otherwise return the pass-through
lines and the Branch tuple. -/
def parse_branch_data (data : List (List Char)) :
    Except PyError (List (List Char) × Branch) :=
  if data = [] then .error .branchParse
  else
    match branchScan data { new_data := [], head := none, upstream := none,
                            ahead := none, behind := none } with
    | .error e => .error e
    | .ok st =>
      match st.head with
      | none => .error .branchParse
      | some h =>
        .ok (st.new_data,
             { head := h, upstream := st.upstream, ahead := st.ahead,
               behind := st.behind })

/-- Python `\w` on the ASCII characters that occur in porcelain status
codes: letters, digits and underscore. -/
def isWordChar (c : Char) : Bool :=
  c.isAlphanum || c == '_'

/-- `BRANCH_STAGED_REGEX.match(s)` for the pattern `\w\.`: an anchored match
of a word character followed by a literal dot. -/
def stagedMatch (s : List Char) : Bool :=
  match s with
  | c1 :: c2 :: _ => isWordChar c1 && c2 == '.'
  | _ => false

/-- parse_staged_files_data: a line starting with '1' is split on
whitespace; field 1 is tested against BRANCH_STAGED_REGEX and field 8 (the
path) is appended to staged_files on a match, to unstaged_files otherwise
(IndexError when the line has too few fields). Other lines pass through. -/
def parse_staged_files_data : List (List Char) →
    Except PyError (List (List Char) × List (List Char) × List (List Char))
  | [] => .ok ([], [], [])
  | l :: ls =>
    if startsWith '1' l then
      match pyIndex (pySplitWS l) 1 with
      | .error e => .error e
      | .ok f1 =>
        match pyIndex (pySplitWS l) 8 with
        | .error e => .error e
        | .ok f8 =>
          match parse_staged_files_data ls with
          | .error e => .error e
          | .ok (nd, st, un) =>
            if stagedMatch f1 then .ok (nd, f8 :: st, un)
            else .ok (nd, st, f8 :: un)
    else
      match parse_staged_files_data ls with
      | .error e => .error e
      | .ok (nd, st, un) => .ok (l :: nd, st, un)

/-- parse_untracked_files_data: a line starting with '?' contributes
`line.split()[1]` to the untracked list; other lines pass through. -/
def parse_untracked_files_data : List (List Char) →
    Except PyError (List (List Char) × List (List Char))
  | [] => .ok ([], [])
  | l :: ls =>
    if startsWith '?' l then
      match pyIndex (pySplitWS l) 1 with
      | .error e => .error e
      | .ok p =>
        match parse_untracked_files_data ls with
        | .error e => .error e
        | .ok (nd, un) => .ok (nd, p :: un)
    else
      match parse_untracked_files_data ls with
      | .error e => .error e
      | .ok (nd, un) => .ok (l :: nd, un)

/-- parse_ignored_files_data: same shape as the untracked pass, keyed on
'!'. -/
def parse_ignored_files_data : List (List Char) →
    Except PyError (List (List Char) × List (List Char))
  | [] => .ok ([], [])
  | l :: ls =>
    if startsWith '!' l then
      match pyIndex (pySplitWS l) 1 with
      | .error e => .error e
      | .ok p =>
        match parse_ignored_files_data ls with
        | .error e => .error e
        | .ok (nd, ig) => .ok (nd, p :: ig)
    else
      match parse_ignored_files_data ls with
      | .error e => .error e
      | .ok (nd, ig) => .ok (l :: nd, ig)

/-- parse_git_status: run the four passes in order (each exception aborting
the rest), derive the stash count as `len(stash.split('\n')) - 1` and the
status from the emptiness of staged and unstaged. -/
def parse_git_status (data_str stash_data_str : List Char) :
    Except PyError GitRepo :=
  match parse_branch_data (pySplitChar '\n' data_str) with
  | .error e => .error e
  | .ok (d1, branch) =>
    match parse_staged_files_data d1 with
    | .error e => .error e
    | .ok (d2, staged, unstaged) =>
      match parse_untracked_files_data d2 with
      | .error e => .error e
      | .ok (d3, untracked) =>
        match parse_ignored_files_data d3 with
        | .error e => .error e
        | .ok (_, ignored) =>
          .ok { branch := branch, staged := staged, unstaged := unstaged,
                untracked := untracked, ignored := ignored,
                stashed := (pySplitChar '\n' stash_data_str).length - 1,
                status :=
                  if staged.length = 0 ∧ unstaged.length = 0 then GitStatus.clean
                  else GitStatus.dirty }

/-! ## Renderers -/

/-- GitStatus.segment: the if/elif/else chain of the home variant, mapping
each status value to one fragment; any value outside the three members
reaches the final else. -/
def GitStatus.segment (s : GitStatus) : Seg :=
  if s = GitStatus.clean then
    { contents := "✔".toList, highlight_groups := COLORS "gitstatus_clean",
      draw_inner_divider := some true }
  else if s = GitStatus.dirty then
    { contents := "⨀ ".toList, highlight_groups := COLORS "gitstatus_dirty",
      draw_inner_divider := some true }
  else if s = GitStatus.broken then
    { contents := "✘".toList, highlight_groups := COLORS "gitstatus_broken",
      draw_inner_divider := some true }
  else
    { contents := "⁉".toList, highlight_groups := COLORS "gitstatus_default",
      draw_inner_divider := some true }

/-- GitRepo._files_segment of the home variant (the segment_type parameter
defaults to "files" at every call site). -/
def filesSegAux (contents : List Char) (segment_type : String) : Seg :=
  { contents := contents, draw_inner_divider := some true,
    highlight_groups := COLORS segment_type }

/-- GitRepo.staged_segment (home variant): emitted only when staged is
nonempty, as the black-circle glyph followed by the count. -/
def GitRepo.staged_segment (g : GitRepo) : Option Seg :=
  if g.staged ≠ [] then
    some (filesSegAux ("⚫".toList ++ (Nat.repr g.staged.length).toList) "files")
  else none

/-- GitRepo.unstaged_segment (home variant). -/
def GitRepo.unstaged_segment (g : GitRepo) : Option Seg :=
  if g.unstaged ≠ [] then
    some (filesSegAux ("±".toList ++ (Nat.repr g.unstaged.length).toList) "files")
  else none

/-- GitRepo.untracked_segment (home variant). -/
def GitRepo.untracked_segment (g : GitRepo) : Option Seg :=
  if g.untracked ≠ [] then
    some (filesSegAux ("…".toList ++ (Nat.repr g.untracked.length).toList) "files")
  else none

/-- GitRepo.branch_segment: always a fragment carrying the head name. -/
def GitRepo.branch_segment (g : GitRepo) : Option Seg :=
  some { contents := g.branch.head, draw_inner_divider := some true,
         highlight_groups := COLORS "branch" }

/-- GitRepo.status_segment delegates to GitStatus.segment. -/
def GitRepo.status_segment (g : GitRepo) : Option Seg :=
  some g.status.segment

/-- GitRepo.stash_segment: emitted only when the stash count is truthy,
i.e. nonzero. -/
def GitRepo.stash_segment (g : GitRepo) : Option Seg :=
  if g.stashed ≠ 0 then
    some { contents := "⚑".toList ++ (Nat.repr g.stashed).toList,
           draw_inner_divider := some true, highlight_groups := COLORS "stash" }
  else none

/-- The files_info list built by GitRepo.files_segment of the
segments/tmux variant, in its source order: the `if self.staged` guard
appears twice, the second occurrence appending the bare staged count with
no glyph. -/
def files_info_list (g : GitRepo) : List (List Char) :=
  (if g.staged ≠ [] then ["⚫".toList ++ (Nat.repr g.staged.length).toList] else []) ++
  (if g.staged ≠ [] then [(Nat.repr g.staged.length).toList] else []) ++
  (if g.unstaged ≠ [] then ["±".toList ++ (Nat.repr g.unstaged.length).toList] else []) ++
  (if g.untracked ≠ [] then ["…".toList ++ (Nat.repr g.untracked.length).toList] else [])

/-- GitRepo.files_segment (segments/tmux variant): always returns one
fragment whose contents join files_info with the box-drawing slash. -/
def GitRepo.files_segment (g : GitRepo) : Option Seg :=
  some { contents := joinWith "╱".toList (files_info_list g),
         draw_inner_divider := some true, highlight_groups := COLORS2 "files" }

/-- GitRepo.red_segment (segments/tmux variant): a constant fragment with
no draw_inner_divider key. -/
def GitRepo.red_segment (_g : GitRepo) : Option Seg :=
  some { contents := "☭".toList, highlight_groups := COLORS2 "red",
         draw_inner_divider := none }

/-! ## Probe layer -/

/-- The environment git_from_path consumes: whether the directory exists,
and each command's return code and decoded stdout. -/
structure ProbeEnv where
  pathExists : Bool
  rc1 : Int
  out1 : List Char
  rc2 : Int
  out2 : List Char
deriving DecidableEq, Repr

/-- git_from_path: None when the directory is missing or a command's
return code is greater than zero; otherwise the parse result (so a parse
exception propagates to the caller). -/
def git_from_path (env : ProbeEnv) : Except PyError (Option GitRepo) :=
  if env.pathExists = false then .ok none
  else if 0 < env.rc1 then .ok none
  else if 0 < env.rc2 then .ok none
  else (parse_git_status env.out1 env.out2).map some

/-- GitSegment.__call__ of the home variant, after the pane-id and path
lookups have succeeded: probe, then collect the truthy segments in source
order, or no fragments when the probe was absent. A parse exception raised
inside git_from_path propagates out of the call unchanged. -/
def gitSegmentCall (env : ProbeEnv) : Except PyError (List Seg) :=
  (git_from_path env).map fun og =>
    match og with
    | some g =>
      [g.status_segment, g.branch_segment, g.stash_segment,
       g.staged_segment, g.unstaged_segment, g.untracked_segment].filterMap id
    | none => []

/-! ## Statement-side definitions used by the claim theorems -/

/-- Is an Except value a normal result. -/
def exOk : Except PyError Int → Bool
  | .ok _ => true
  | .error _ => false

/-- A porcelain v2 header line shape, used to quantify over well-formed
header-only inputs: the four header kinds the spec lists. For branch.ab the
two counts are carried as their digit strings. -/
inductive HeaderLine where
  | oid (h : List Char)
  | hd (x : List Char)
  | upstream (y : List Char)
  | ab (a b : List Char)

/-- A payload token that survives space- and newline-splitting intact. -/
def goodName (s : List Char) : Bool :=
  s.all (fun c => !(c == ' ') && !(c == '\n'))

/-- Well-formedness of a header line: space- and newline-free payloads, and
nonempty digit strings for the ahead/behind counts. -/
def headerWF : HeaderLine → Bool
  | .oid h => goodName h
  | .hd x => goodName x
  | .upstream y => goodName y
  | .ab a b => !a.isEmpty && a.all Char.isDigit && !b.isEmpty && b.all Char.isDigit

/-- Render a header shape to its literal status line. -/
def renderHeader : HeaderLine → List Char
  | .oid h => "# branch.oid ".toList ++ h
  | .hd x => "# branch.head ".toList ++ x
  | .upstream y => "# branch.upstream ".toList ++ y
  | .ab a b => "# branch.ab +".toList ++ a ++ " -".toList ++ b

/-- The field update a recognized header performs on the scan state. -/
def applyHeader (st : BranchScan) : HeaderLine → BranchScan
  | .oid _ => st
  | .hd x => { st with head := some x }
  | .upstream y => { st with upstream := some y }
  | .ab a b => { st with ahead := some ((digitsVal a : Int)),
                         behind := some ((digitsVal b : Int)) }

/-- The head name a header contributes, if any. -/
def headPayload : HeaderLine → Option (List Char)
  | .hd x => some x
  | _ => none

/-- The upstream name a header contributes, if any. -/
def upPayload : HeaderLine → Option (List Char)
  | .upstream y => some y
  | _ => none

/-- The ahead/behind digit strings a header contributes, if any. -/
def abPayload : HeaderLine → Option (List Char × List Char)
  | .ab a b => some (a, b)
  | _ => none

/-- The last value written over an initial optional value, i.e. the effect
of repeated assignment in a scan. -/
def lastSet (o : Option α) : List α → Option α
  | [] => o
  | x :: xs => lastSet (some x) xs

/-- One line of a status input used to quantify over full status texts: a
header line of one of the four recognized shapes, or an arbitrary
non-header line (an entry line such as a `1`/`?`/`!` record). -/
inductive StatusLine where
  | header (h : HeaderLine)
  | entry (l : List Char)

/-- Render a status line to its literal text. -/
def renderStatusLine : StatusLine → List Char
  | .header h => renderHeader h
  | .entry l => l

/-- Well-formedness of a status line: headers as in headerWF; an entry line
must not begin with '#' and must contain no newline (it is one line). -/
def statusLineWF : StatusLine → Bool
  | .header h => headerWF h
  | .entry l => !startsWith '#' l && l.all (fun c => !(c == '\n'))

/-- The header a status line carries, if any. -/
def headerOf : StatusLine → Option HeaderLine
  | .header h => some h
  | .entry _ => none

/-- The entry text a status line carries, if any. -/
def entryOf : StatusLine → Option (List Char)
  | .entry l => some l
  | .header _ => none

/-- The field update one status line performs on the branch-scan state:
headers update their field, entry lines are appended to new_data. -/
def applyStatusLine (st : BranchScan) : StatusLine → BranchScan
  | .header h => applyHeader st h
  | .entry l => { st with new_data := st.new_data ++ [l] }

/-- A line the parse_branch_data loop traverses without raising and without
setting head: a non-header line, or a well-shaped header whose key is not
branch.head. -/
def benignLine (l : List Char) : Bool :=
  if startsWith '#' l then
    match pySplitChar ' ' l with
    | [] => false
    | [_] => false
    | _ :: key :: rest =>
      if key = "branch.head".toList then false
      else if key = "branch.upstream".toList then !rest.isEmpty
      else if key = "branch.ab".toList then
        rest.length == 2 && rest.all (fun i => exOk (pyInt (i.drop 1)))
      else true
  else true

/-- A header line whose key is none of the three recognized branch keys. -/
def unrecognizedKey (l : List Char) : Bool :=
  match pySplitChar ' ' l with
  | _ :: key :: _ =>
    !(key == "branch.head".toList) && !(key == "branch.upstream".toList) &&
    !(key == "branch.ab".toList)
  | _ => false

/-- The path a `1` entry line contributes to the staged list under the
code's classification (status code matching `\w\.`), if any. -/
def stagedSel (l : List Char) : Option (List Char) :=
  if startsWith '1' l && stagedMatch ((pySplitWS l).getD 1 []) then
    (pySplitWS l).get? 8
  else none

/-- The path a `1` entry line contributes to the unstaged list under the
code's classification, if any. -/
def unstagedSel (l : List Char) : Option (List Char) :=
  if startsWith '1' l && !stagedMatch ((pySplitWS l).getD 1 []) then
    (pySplitWS l).get? 8
  else none

/-- Modelled from the spec: the stash count the specification describes,
the number of non-empty lines of the stash listing. -/
def specStashCount (t : List Char) : Nat :=
  ((pySplitChar '\n' t).filter (fun l => !l.isEmpty)).length

/-- `branch_data[0]` applied under an update function: the shape of the
branch.head and branch.upstream arms of branchLine. -/
def firstArg (rest : List (List Char)) (f : List Char → BranchScan) :
    Except PyError BranchScan :=
  match rest with
  | [] => .error .indexErr
  | x :: _ => .ok (f x)

/-- The branch.ab arm of branchLine. -/
def abArm (st : BranchScan) (rest : List (List Char)) :
    Except PyError BranchScan :=
  match mapExcept (fun i => pyInt (i.drop 1)) rest with
  | .error e => .error e
  | .ok [a, b] => .ok { st with ahead := some a, behind := some b }
  | .ok _ => .error .valueErr

/-! ## Lemmas about the string primitives -/

theorem pySplitChar_ne_nil (c : Char) (s : List Char) : pySplitChar c s ≠ [] := by
  cases s with
  | nil => simp [pySplitChar]
  | cons x xs =>
    cases hx : (x == c) with
    | true => simp [pySplitChar, hx]
    | false =>
      rcases hsp : pySplitChar c xs with _ | ⟨r, rs⟩ <;>
        simp [pySplitChar, hx, hsp]

theorem pySplitChar_no_sep (c : Char) (l : List Char)
    (h : ∀ x ∈ l, x ≠ c) : pySplitChar c l = [l] := by
  induction l with
  | nil => rfl
  | cons x xs ih =>
    have hx : (x == c) = false := by
      simp only [beq_eq_false_iff_ne, ne_eq]
      exact h x (List.mem_cons_self x xs)
    have ih2 := ih (fun y hy => h y (List.mem_cons_of_mem x hy))
    simp [pySplitChar, hx, ih2]

theorem pySplitChar_append (c : Char) (l r : List Char)
    (h : ∀ x ∈ l, x ≠ c) :
    pySplitChar c (l ++ c :: r) = l :: pySplitChar c r := by
  induction l with
  | nil => simp [pySplitChar]
  | cons x xs ih =>
    have hx : (x == c) = false := by
      simp only [beq_eq_false_iff_ne, ne_eq]
      exact h x (List.mem_cons_self x xs)
    have ih2 := ih (fun y hy => h y (List.mem_cons_of_mem x hy))
    simp [pySplitChar, hx, ih2]

theorem joinWith_split (c : Char) (ls : List (List Char)) (hne : ls ≠ [])
    (h : ∀ l ∈ ls, ∀ x ∈ l, x ≠ c) :
    pySplitChar c (joinWith [c] ls) = ls := by
  induction ls with
  | nil => exact absurd rfl hne
  | cons l t ih =>
    cases t with
    | nil =>
      simp only [joinWith]
      exact pySplitChar_no_sep c l (h l (List.mem_cons_self l []))
    | cons l2 t2 =>
      have hjoin : joinWith [c] (l :: l2 :: t2) = l ++ c :: joinWith [c] (l2 :: t2) := by
        simp [joinWith]
      rw [hjoin, pySplitChar_append c l _ (h l (List.mem_cons_self l _))]
      rw [ih (by simp) (fun m hm => h m (List.mem_cons_of_mem l hm))]

theorem pySplitChar_length (c : Char) (s : List Char) :
    (pySplitChar c s).length = s.count c + 1 := by
  induction s with
  | nil => simp [pySplitChar]
  | cons x xs ih =>
    by_cases hx : x = c
    · subst hx
      simp [pySplitChar, List.count_cons, ih]
    · have hb : (x == c) = false := by simp [beq_eq_false_iff_ne, hx]
      rcases hsp : pySplitChar c xs with _ | ⟨r, rs⟩
      · exact absurd hsp (pySplitChar_ne_nil c xs)
      · have := ih
        rw [hsp] at this
        simp only [pySplitChar, hb, hsp, List.count_cons]
        simp only [List.length_cons] at this ⊢
        simp [hx, this]

theorem digit_ne_chars (c : Char) (h : c.isDigit = true) :
    c ≠ '-' ∧ c ≠ '+' ∧ c ≠ ' ' ∧ c ≠ '\n' := by
  refine ⟨?_, ?_, ?_, ?_⟩ <;> rintro rfl <;> exact absurd h (by decide)

theorem digit_not_ws (c : Char) (h : c.isDigit = true) : isWS c = false := by
  simp only [isWS, Bool.or_eq_false_iff, beq_eq_false_iff_ne, ne_eq]
  refine ⟨⟨⟨⟨⟨?_, ?_⟩, ?_⟩, ?_⟩, ?_⟩, ?_⟩ <;> rintro rfl <;>
    exact absurd h (by decide)

theorem dropWhile_all_false {p : Char → Bool} {l : List Char}
    (h : ∀ x ∈ l, p x = false) : l.dropWhile p = l := by
  cases l with
  | nil => rfl
  | cons x xs => simp [List.dropWhile, h x (List.mem_cons_self x xs)]

theorem stripWS_digits (ds : List Char) (h : ds.all Char.isDigit = true) :
    stripWS ds = ds := by
  have h' : ∀ x ∈ ds, isWS x = false := fun x hx =>
    digit_not_ws x (List.all_eq_true.mp h x hx)
  unfold stripWS
  rw [dropWhile_all_false h',
      dropWhile_all_false (fun x hx => h' x (List.mem_reverse.mp hx)),
      List.reverse_reverse]

theorem pyDigits_digits (ds : List Char) (h1 : ds ≠ [])
    (h2 : ds.all Char.isDigit = true) :
    pyDigits ds = .ok ((digitsVal ds : Int)) := by
  have : ds.isEmpty = false := by
    cases ds with
    | nil => exact absurd rfl h1
    | cons a b => rfl
  simp [pyDigits, this, h2]

theorem pyInt_digits (ds : List Char) (h1 : ds ≠ [])
    (h2 : ds.all Char.isDigit = true) :
    pyInt ds = .ok ((digitsVal ds : Int)) := by
  unfold pyInt
  rw [stripWS_digits ds h2]
  cases ds with
  | nil => exact absurd rfl h1
  | cons c t =>
    have hc : c.isDigit = true := List.all_eq_true.mp h2 c (List.mem_cons_self c t)
    obtain ⟨hm, hp, _, _⟩ := digit_ne_chars c hc
    have hm' : (c == '-') = false := by simp [beq_eq_false_iff_ne, hm]
    have hp' : (c == '+') = false := by simp [beq_eq_false_iff_ne, hp]
    simp only [hm', hp', if_false, Bool.false_eq_true]
    exact pyDigits_digits (c :: t) (by simp) h2

/-! ## Lemmas about header scanning -/

theorem split_header (key payload : List Char) (hk : ∀ ch ∈ key, ch ≠ ' ')
    (hp : ∀ ch ∈ payload, ch ≠ ' ') :
    pySplitChar ' ' ('#' :: ' ' :: (key ++ ' ' :: payload)) =
      [['#'], key, payload] := by
  rw [show '#' :: ' ' :: (key ++ ' ' :: payload) =
        ['#'] ++ ' ' :: (key ++ ' ' :: payload) from rfl,
      pySplitChar_append ' ' ['#'] _ (by decide),
      pySplitChar_append ' ' key _ hk,
      pySplitChar_no_sep ' ' payload hp]

theorem split_header2 (key p1 p2 : List Char) (hk : ∀ ch ∈ key, ch ≠ ' ')
    (h1 : ∀ ch ∈ p1, ch ≠ ' ') (h2 : ∀ ch ∈ p2, ch ≠ ' ') :
    pySplitChar ' ' ('#' :: ' ' :: (key ++ ' ' :: (p1 ++ ' ' :: p2))) =
      [['#'], key, p1, p2] := by
  rw [show '#' :: ' ' :: (key ++ ' ' :: (p1 ++ ' ' :: p2)) =
        ['#'] ++ ' ' :: (key ++ ' ' :: (p1 ++ ' ' :: p2)) from rfl,
      pySplitChar_append ' ' ['#'] _ (by decide),
      pySplitChar_append ' ' key _ hk,
      pySplitChar_append ' ' p1 _ h1,
      pySplitChar_no_sep ' ' p2 h2]

theorem goodName_no_space {s : List Char} (h : goodName s = true) :
    ∀ ch ∈ s, ch ≠ ' ' := by
  intro ch hch
  have := List.all_eq_true.mp h ch hch
  simp only [Bool.and_eq_true, Bool.not_eq_true', beq_eq_false_iff_ne, ne_eq] at this
  exact this.1

theorem goodName_no_nl {s : List Char} (h : goodName s = true) :
    ∀ ch ∈ s, ch ≠ '\n' := by
  intro ch hch
  have := List.all_eq_true.mp h ch hch
  simp only [Bool.and_eq_true, Bool.not_eq_true', beq_eq_false_iff_ne, ne_eq] at this
  exact this.2

theorem digits_no_space {s : List Char} (h : s.all Char.isDigit = true) :
    ∀ ch ∈ s, ch ≠ ' ' := fun ch hch =>
  (digit_ne_chars ch (List.all_eq_true.mp h ch hch)).2.2.1

theorem branchLine_render (st : BranchScan) (hl : HeaderLine)
    (hwf : headerWF hl = true) :
    branchLine st (renderHeader hl) = .ok (applyHeader st hl) := by
  cases hl with
  | oid p =>
    have hp := goodName_no_space hwf
    have heq : renderHeader (.oid p) =
        '#' :: ' ' :: ("branch.oid".toList ++ ' ' :: p) := rfl
    rw [heq]
    unfold branchLine
    rw [split_header "branch.oid".toList p (by decide) hp]
    simp +decide [startsWith, applyHeader]
  | hd p =>
    have hp := goodName_no_space hwf
    have heq : renderHeader (.hd p) =
        '#' :: ' ' :: ("branch.head".toList ++ ' ' :: p) := rfl
    rw [heq]
    unfold branchLine
    rw [split_header "branch.head".toList p (by decide) hp]
    simp +decide [startsWith, applyHeader]
  | upstream p =>
    have hp := goodName_no_space hwf
    have heq : renderHeader (.upstream p) =
        '#' :: ' ' :: ("branch.upstream".toList ++ ' ' :: p) := rfl
    rw [heq]
    unfold branchLine
    rw [split_header "branch.upstream".toList p (by decide) hp]
    simp +decide [startsWith, applyHeader]
  | ab a b =>
    simp only [headerWF, Bool.and_eq_true, Bool.not_eq_true',
               List.isEmpty_eq_false] at hwf
    obtain ⟨⟨⟨hane, hadig⟩, hbne⟩, hbdig⟩ := hwf
    have ha := pyInt_digits a hane hadig
    have hb := pyInt_digits b hbne hbdig
    have heq : renderHeader (.ab a b) =
        '#' :: ' ' :: ("branch.ab".toList ++ ' ' :: (('+' :: a) ++ ' ' :: ('-' :: b))) := by
      show "# branch.ab +".toList ++ a ++ " -".toList ++ b = _
      rw [List.append_assoc _ _ b, List.append_assoc _ a _]
      rfl
    rw [heq]
    unfold branchLine
    rw [split_header2 "branch.ab".toList ('+' :: a) ('-' :: b) (by decide)
          (by intro ch hch
              rcases List.mem_cons.mp hch with h | h
              · subst h; decide
              · exact digits_no_space hadig ch h)
          (by intro ch hch
              rcases List.mem_cons.mp hch with h | h
              · subst h; decide
              · exact digits_no_space hbdig ch h)]
    simp +decide [startsWith, mapExcept, ha, hb, applyHeader]

theorem branchScan_render (hs : List HeaderLine) (st : BranchScan)
    (hwf : ∀ h ∈ hs, headerWF h = true) :
    branchScan (hs.map renderHeader) st = .ok (hs.foldl applyHeader st) := by
  induction hs generalizing st with
  | nil => rfl
  | cons h t ih =>
    simp only [List.map_cons, List.foldl_cons, branchScan,
               branchLine_render st h (hwf h (List.mem_cons_self h t))]
    exact ih _ (fun m hm => hwf m (List.mem_cons_of_mem h hm))

theorem foldl_applyHeader (hs : List HeaderLine) (st : BranchScan) :
    hs.foldl applyHeader st =
      { new_data := st.new_data,
        head := lastSet st.head (hs.filterMap headPayload),
        upstream := lastSet st.upstream (hs.filterMap upPayload),
        ahead := lastSet st.ahead
          ((hs.filterMap abPayload).map (fun p => ((digitsVal p.1 : Int)))),
        behind := lastSet st.behind
          ((hs.filterMap abPayload).map (fun p => ((digitsVal p.2 : Int)))) } := by
  induction hs generalizing st with
  | nil => simp [lastSet]
  | cons h t ih =>
    cases h <;>
      simp [applyHeader, headPayload, upPayload, abPayload, lastSet, ih]

theorem lastSet_le_one {α : Type} (l : List α) (h : l.length ≤ 1) :
    lastSet none l = l.head? := by
  match l with
  | [] => rfl
  | [a] => rfl
  | a :: b :: t => simp at h

theorem renderHeader_no_nl (h : HeaderLine) (hwf : headerWF h = true) :
    ∀ x ∈ renderHeader h, x ≠ '\n' := by
  cases h with
  | oid p =>
    intro x hx
    rcases List.mem_append.mp hx with h1 | h1
    · exact (by decide : ∀ y ∈ "# branch.oid ".toList, y ≠ '\n') x h1
    · exact goodName_no_nl hwf x h1
  | hd p =>
    intro x hx
    rcases List.mem_append.mp hx with h1 | h1
    · exact (by decide : ∀ y ∈ "# branch.head ".toList, y ≠ '\n') x h1
    · exact goodName_no_nl hwf x h1
  | upstream p =>
    intro x hx
    rcases List.mem_append.mp hx with h1 | h1
    · exact (by decide : ∀ y ∈ "# branch.upstream ".toList, y ≠ '\n') x h1
    · exact goodName_no_nl hwf x h1
  | ab a b =>
    simp only [headerWF, Bool.and_eq_true, Bool.not_eq_true',
               List.isEmpty_eq_false] at hwf
    obtain ⟨⟨⟨_, hadig⟩, _⟩, hbdig⟩ := hwf
    intro x hx
    simp only [renderHeader, List.append_assoc, List.mem_append] at hx
    rcases hx with h1 | h1 | h1 | h1
    · exact (by decide : ∀ y ∈ "# branch.ab +".toList, y ≠ '\n') x h1
    · exact (digit_ne_chars x (List.all_eq_true.mp hadig x h1)).2.2.2
    · exact (by decide : ∀ y ∈ " -".toList, y ≠ '\n') x h1
    · exact (digit_ne_chars x (List.all_eq_true.mp hbdig x h1)).2.2.2

theorem renderStatusLine_no_nl (sl : StatusLine)
    (hwf : statusLineWF sl = true) :
    ∀ c ∈ renderStatusLine sl, c ≠ '\n' := by
  cases sl with
  | header h => exact renderHeader_no_nl h hwf
  | entry l =>
    intro c hc
    simp only [statusLineWF, Bool.and_eq_true, Bool.not_eq_true'] at hwf
    have := List.all_eq_true.mp hwf.2 c hc
    simpa using this

theorem branchLine_renderSL (st : BranchScan) (sl : StatusLine)
    (hwf : statusLineWF sl = true) :
    branchLine st (renderStatusLine sl) = .ok (applyStatusLine st sl) := by
  cases sl with
  | header h => exact branchLine_render st h hwf
  | entry l =>
    simp only [statusLineWF, Bool.and_eq_true, Bool.not_eq_true'] at hwf
    unfold branchLine
    rw [if_neg (by simp [renderStatusLine, hwf.1])]
    rfl

theorem branchScan_renderSL (ls : List StatusLine) (st : BranchScan)
    (hwf : ∀ sl ∈ ls, statusLineWF sl = true) :
    branchScan (ls.map renderStatusLine) st =
      .ok (ls.foldl applyStatusLine st) := by
  induction ls generalizing st with
  | nil => rfl
  | cons sl t ih =>
    simp only [List.map_cons, List.foldl_cons, branchScan,
               branchLine_renderSL st sl (hwf sl (List.mem_cons_self sl t))]
    exact ih _ (fun m hm => hwf m (List.mem_cons_of_mem sl hm))

theorem foldl_applyStatusLine (ls : List StatusLine) (st : BranchScan) :
    ls.foldl applyStatusLine st =
      { new_data := st.new_data ++ ls.filterMap entryOf,
        head := lastSet st.head
          ((ls.filterMap headerOf).filterMap headPayload),
        upstream := lastSet st.upstream
          ((ls.filterMap headerOf).filterMap upPayload),
        ahead := lastSet st.ahead
          (((ls.filterMap headerOf).filterMap abPayload).map
            (fun p => ((digitsVal p.1 : Int)))),
        behind := lastSet st.behind
          (((ls.filterMap headerOf).filterMap abPayload).map
            (fun p => ((digitsVal p.2 : Int)))) } := by
  induction ls generalizing st with
  | nil => simp [lastSet]
  | cons sl t ih =>
    cases sl with
    | header h =>
      cases h <;>
        simp [applyStatusLine, applyHeader, headerOf, entryOf, headPayload,
              upPayload, abPayload, lastSet, ih]
    | entry l =>
      simp [applyStatusLine, headerOf, entryOf, lastSet, ih]

theorem foldl_applyStatusLine_init (ls : List StatusLine) :
    ls.foldl applyStatusLine
      { new_data := [], head := none, upstream := none, ahead := none,
        behind := none } =
      { new_data := ls.filterMap entryOf,
        head := lastSet none ((ls.filterMap headerOf).filterMap headPayload),
        upstream := lastSet none
          ((ls.filterMap headerOf).filterMap upPayload),
        ahead := lastSet none
          (((ls.filterMap headerOf).filterMap abPayload).map
            (fun p => ((digitsVal p.1 : Int)))),
        behind := lastSet none
          (((ls.filterMap headerOf).filterMap abPayload).map
            (fun p => ((digitsVal p.2 : Int)))) } :=
  foldl_applyStatusLine ls _

/-! ## Lemmas about benign lines and pass-through -/

theorem exOk_ok {e : Except PyError Int} (h : exOk e = true) :
    ∃ v, e = .ok v := by
  cases e with
  | ok v => exact ⟨v, rfl⟩
  | error _ => simp [exOk] at h

theorem branchLine_split (st : BranchScan) (l f0 key0 : List Char)
    (rest : List (List Char)) (hsh : startsWith '#' l = true)
    (hsp : pySplitChar ' ' l = f0 :: key0 :: rest) :
    branchLine st l =
      (if key0 = "branch.head".toList then
        firstArg rest (fun x => { st with head := some x })
      else if key0 = "branch.upstream".toList then
        firstArg rest (fun y => { st with upstream := some y })
      else if key0 = "branch.ab".toList then abArm st rest
      else .ok st) := by
  unfold branchLine firstArg abArm
  rw [if_pos hsh]
  simp only [hsp]

theorem branchLine_benign (st : BranchScan) (l : List Char)
    (h : benignLine l = true) :
    ∃ st2, branchLine st l = .ok st2 ∧ st2.head = st.head := by
  by_cases hsh : startsWith '#' l = true
  · rcases hsp : pySplitChar ' ' l with _ | ⟨f0, rest0⟩
    · exact absurd hsp (pySplitChar_ne_nil ' ' l)
    · rcases rest0 with _ | ⟨key0, rest⟩
      · unfold benignLine at h
        rw [if_pos hsh, hsp] at h
        simp at h
      · unfold benignLine at h
        rw [if_pos hsh, hsp] at h
        have h2 : (if key0 = "branch.head".toList then false
                   else if key0 = "branch.upstream".toList then !rest.isEmpty
                   else if key0 = "branch.ab".toList then
                     rest.length == 2 &&
                       rest.all (fun i => exOk (pyInt (i.drop 1)))
                   else true) = true := h
        rw [branchLine_split st l f0 key0 rest hsh hsp]
        by_cases hk1 : key0 = "branch.head".toList
        · rw [if_pos hk1] at h2; simp at h2
        · rw [if_neg hk1] at h2 ⊢
          by_cases hk2 : key0 = "branch.upstream".toList
          · rw [if_pos hk2] at h2 ⊢
            rcases rest with _ | ⟨y, t⟩
            · simp at h2
            · exact ⟨{ st with upstream := some y }, rfl, rfl⟩
          · rw [if_neg hk2] at h2 ⊢
            by_cases hk3 : key0 = "branch.ab".toList
            · rw [if_pos hk3] at h2 ⊢
              simp only [Bool.and_eq_true, beq_iff_eq, List.all_eq_true] at h2
              obtain ⟨hlen, hall⟩ := h2
              rcases rest with _ | ⟨i1, rest⟩
              · simp at hlen
              · rcases rest with _ | ⟨i2, rest⟩
                · simp at hlen
                · rcases rest with _ | ⟨i3, rest⟩
                  · obtain ⟨v1, hv1⟩ := exOk_ok (hall i1 (by simp))
                    obtain ⟨v2, hv2⟩ := exOk_ok (hall i2 (by simp))
                    have hv1t : pyInt i1.tail = Except.ok v1 := by
                      rwa [List.drop_one] at hv1
                    have hv2t : pyInt i2.tail = Except.ok v2 := by
                      rwa [List.drop_one] at hv2
                    rw [show abArm st [i1, i2] =
                          .ok { st with ahead := some v1, behind := some v2 } by
                        simp [abArm, mapExcept, hv1, hv2, hv1t, hv2t]]
                    exact ⟨_, rfl, rfl⟩
                  · simp at hlen
            · rw [if_neg hk3] at h2 ⊢
              exact ⟨st, rfl, rfl⟩
  · unfold branchLine
    rw [if_neg hsh]
    exact ⟨_, rfl, rfl⟩

theorem branchScan_benign (lines : List (List Char)) (st : BranchScan)
    (h : ∀ l ∈ lines, benignLine l = true) :
    ∃ st2, branchScan lines st = .ok st2 ∧ st2.head = st.head := by
  induction lines generalizing st with
  | nil => exact ⟨st, rfl, rfl⟩
  | cons l ls ih =>
    obtain ⟨st2, hline, hhead⟩ := branchLine_benign st l (h l (List.mem_cons_self l ls))
    obtain ⟨st3, hscan, hhead3⟩ := ih st2 (fun m hm => h m (List.mem_cons_of_mem l hm))
    refine ⟨st3, ?_, hhead3.trans hhead⟩
    simp [branchScan, hline, hscan]

theorem parse_branch_benign (lines : List (List Char))
    (h : ∀ l ∈ lines, benignLine l = true) (hne : lines ≠ []) :
    parse_branch_data lines = .error .branchParse := by
  obtain ⟨st2, hscan, hhead⟩ :=
    branchScan_benign lines
      { new_data := [], head := none, upstream := none, ahead := none,
        behind := none } h
  have h0 : st2.head = none := hhead
  unfold parse_branch_data
  rw [if_neg hne, hscan]
  simp [h0]

theorem branchLine_unrecognized (st : BranchScan) (l : List Char)
    (hsh : startsWith '#' l = true) (hk : unrecognizedKey l = true) :
    branchLine st l = .ok st := by
  rcases hsp : pySplitChar ' ' l with _ | ⟨f0, rest0⟩
  · exact absurd hsp (pySplitChar_ne_nil ' ' l)
  · rcases rest0 with _ | ⟨key0, rest⟩
    · unfold unrecognizedKey at hk
      rw [hsp] at hk
      simp at hk
    · unfold unrecognizedKey at hk
      rw [hsp] at hk
      simp only [Bool.and_eq_true, Bool.not_eq_true', beq_eq_false_iff_ne,
                 ne_eq] at hk
      obtain ⟨⟨hk1, hk2⟩, hk3⟩ := hk
      rw [branchLine_split st l f0 key0 rest hsh hsp, if_neg hk1, if_neg hk2,
          if_neg hk3]

theorem staged_pass (lines : List (List Char))
    (h : ∀ l ∈ lines, startsWith '1' l = false) :
    parse_staged_files_data lines = .ok (lines, [], []) := by
  induction lines with
  | nil => rfl
  | cons l ls ih =>
    have h1 := h l (List.mem_cons_self l ls)
    simp [parse_staged_files_data, h1,
          ih (fun m hm => h m (List.mem_cons_of_mem l hm))]

theorem untracked_pass (lines : List (List Char))
    (h : ∀ l ∈ lines, startsWith '?' l = false) :
    parse_untracked_files_data lines = .ok (lines, []) := by
  induction lines with
  | nil => rfl
  | cons l ls ih =>
    have h1 := h l (List.mem_cons_self l ls)
    simp [parse_untracked_files_data, h1,
          ih (fun m hm => h m (List.mem_cons_of_mem l hm))]

theorem ignored_pass (lines : List (List Char))
    (h : ∀ l ∈ lines, startsWith '!' l = false) :
    parse_ignored_files_data lines = .ok (lines, []) := by
  induction lines with
  | nil => rfl
  | cons l ls ih =>
    have h1 := h l (List.mem_cons_self l ls)
    simp [parse_ignored_files_data, h1,
          ih (fun m hm => h m (List.mem_cons_of_mem l hm))]

/-! ## Projection lemma about successful full parses -/

theorem parse_git_status_ok (s t : List Char) (r : GitRepo)
    (h : parse_git_status s t = .ok r) :
    r.stashed = (pySplitChar '\n' t).length - 1 ∧
    r.status = (if r.staged = [] ∧ r.unstaged = [] then GitStatus.clean
                else GitStatus.dirty) := by
  unfold parse_git_status at h
  split at h
  · simp at h
  · split at h
    · simp at h
    · split at h
      · simp at h
      · split at h
        · simp at h
        · simp only [Except.ok.injEq] at h
          subst h
          refine ⟨rfl, ?_⟩
          simp [List.length_eq_zero]

theorem getD_of_get? {α : Type} (l : List α) (n : Nat) (v d : α)
    (h : l.get? n = some v) : l.getD n d = v := by
  unfold List.getD
  rw [h]
  rfl

/-! ## Claim theorems -/

/-- C1, counterexample: for the entry line `1 MM N 100644 100644 100644 h1
h2 file.txt` (index-status M, worktree-status M) the code adds file.txt to
the unstaged list ONLY — the staged list stays empty, although the claim
requires the path in staged whenever X is not '.'. -/
theorem C1_counterexample :
    parse_staged_files_data
      ["1 MM N 100644 100644 100644 h1 h2 file.txt".toList] =
      .ok ([], [], ["file.txt".toList]) := by
  rfl

/-- C1 (amended): for every `1` entry line with at least nine whitespace
fields, parse_staged_files_data adds the ninth field (the path) to exactly
one collection — staged when the two-character status code starts with a
word character followed by '.', unstaged otherwise — so a `1 MM` line goes
to unstaged only and no line ever contributes to both collections; other
lines pass through. -/
theorem C1_staged_unstaged_classification (data : List (List Char))
    (h : ∀ l ∈ data, startsWith '1' l = true → 9 ≤ (pySplitWS l).length) :
    parse_staged_files_data data =
      .ok (data.filter (fun l => !startsWith '1' l),
           data.filterMap stagedSel, data.filterMap unstagedSel) := by
  induction data with
  | nil => rfl
  | cons l ls ih =>
    have ih2 := ih (fun m hm h1 => h m (List.mem_cons_of_mem l hm) h1)
    by_cases h1 : startsWith '1' l = true
    · have hlen := h l (List.mem_cons_self l ls) h1
      have h1lt : 1 < (pySplitWS l).length := by omega
      have h8lt : 8 < (pySplitWS l).length := by omega
      obtain ⟨f1, hf1⟩ : ∃ v, (pySplitWS l).get? 1 = some v :=
        ⟨_, List.get?_eq_get h1lt⟩
      obtain ⟨f8, hf8⟩ : ∃ v, (pySplitWS l).get? 8 = some v :=
        ⟨_, List.get?_eq_get h8lt⟩
      have hgetD : (pySplitWS l).getD 1 [] = f1 := getD_of_get? _ 1 f1 [] hf1
      have hf1g : (pySplitWS l)[1]? = some f1 := by
        rw [← List.get?_eq_getElem?]; exact hf1
      have hf8g : (pySplitWS l)[8]? = some f8 := by
        rw [← List.get?_eq_getElem?]; exact hf8
      by_cases hm : stagedMatch f1 = true
      · simp [parse_staged_files_data, h1, pyIndex, hf1, hf8, hf1g, hf8g, ih2,
              stagedSel, unstagedSel, hgetD, hm]
      · simp [parse_staged_files_data, h1, pyIndex, hf1, hf8, hf1g, hf8g, ih2,
              stagedSel, unstagedSel, hgetD, hm]
    · simp only [Bool.not_eq_true] at h1
      simp [parse_staged_files_data, h1, ih2, stagedSel, unstagedSel]

/-- C1, witness instantiating the amended classification theorem: an `M.`
line lands in staged, an `MM` line in unstaged, a `?` line passes
through. -/
theorem C1_witness :
    parse_staged_files_data
      ["1 M. N 100644 100644 100644 h1 h2 a.txt".toList,
       "1 MM N 100644 100644 100644 h1 h2 b.txt".toList,
       "? c.txt".toList] =
      .ok (["? c.txt".toList], ["a.txt".toList], ["b.txt".toList]) :=
  C1_staged_unstaged_classification
    ["1 M. N 100644 100644 100644 h1 h2 a.txt".toList,
     "1 MM N 100644 100644 100644 h1 h2 b.txt".toList,
     "? c.txt".toList]
    (by decide)

/-- C2, counterexample: the input consisting of the single line `#` contains
no branch.head header, yet parse raises ValueError (from unpacking the
single split field), not BranchParseError as the claim states. -/
theorem C2_counterexample :
    parse_git_status "#".toList "".toList = .error PyError.valueErr ∧
    PyError.valueErr ≠ PyError.branchParse := by
  exact ⟨rfl, by decide⟩

/-- C2 (amended): for every status input in which no branch.head header
occurs and every header line is well shaped (at least two space fields, a
branch.upstream payload present, a branch.ab payload of exactly two
integer-parsable tokens), parse fails with BranchParseError; this covers
inputs with zero header lines and the empty string. Malformed header lines
raise ValueError or IndexError instead. -/
theorem C2_no_head_branchParse (s t : List Char)
    (h : ∀ l ∈ pySplitChar '\n' s, benignLine l = true) :
    parse_git_status s t = .error PyError.branchParse := by
  have hb := parse_branch_benign (pySplitChar '\n' s) h (pySplitChar_ne_nil '\n' s)
  unfold parse_git_status
  rw [hb]

/-- C2, witness: the empty status input (whose single split line is empty,
hence benign) fails with BranchParseError, for any stash text. -/
theorem C2_witness :
    parse_git_status "".toList "a\nb".toList = .error PyError.branchParse :=
  C2_no_head_branchParse "".toList "a\nb".toList (by decide)

/-- C3: for every status input whose lines are header lines drawn from
branch.oid, branch.head X, branch.upstream Y and branch.ab +A -B (with
payloads free of spaces and newlines and nonempty digit strings for A, B)
together with arbitrary non-header lines (entry lines), with exactly one
head header and at most one upstream and one ab header, parse_branch_data
returns head = X, upstream = Y exactly when the upstream header is present,
ahead/behind = A/B (signs stripped) exactly when the ab header is present,
and a remaining-line set that is exactly the non-header lines in order — in
particular empty when the input has only a head header and no entry
lines. -/
theorem C3_branch_headers (ls : List StatusLine) (x : List Char)
    (hwf : ∀ sl ∈ ls, statusLineWF sl = true)
    (hx : (ls.filterMap headerOf).filterMap headPayload = [x])
    (hu : ((ls.filterMap headerOf).filterMap upPayload).length ≤ 1)
    (hab : ((ls.filterMap headerOf).filterMap abPayload).length ≤ 1) :
    parse_branch_data
        (pySplitChar '\n' (joinWith ['\n'] (ls.map renderStatusLine))) =
      .ok (ls.filterMap entryOf,
           { head := x,
             upstream := ((ls.filterMap headerOf).filterMap upPayload).head?,
             ahead := (((ls.filterMap headerOf).filterMap abPayload).head?).map
               (fun p => ((digitsVal p.1 : Int))),
             behind := (((ls.filterMap headerOf).filterMap abPayload).head?).map
               (fun p => ((digitsVal p.2 : Int))) }) := by
  have hne : ls ≠ [] := by
    intro he
    rw [he] at hx
    simp at hx
  have hmapne : ls.map renderStatusLine ≠ [] := by
    simpa using hne
  rw [joinWith_split '\n' _ hmapne
       (fun l hl => by
         obtain ⟨sl, hslm, hre⟩ := List.mem_map.mp hl
         exact hre ▸ renderStatusLine_no_nl sl (hwf sl hslm))]
  unfold parse_branch_data
  rw [if_neg hmapne, branchScan_renderSL ls _ hwf, foldl_applyStatusLine_init,
      hx]
  rw [lastSet_le_one _ hu,
      lastSet_le_one (((ls.filterMap headerOf).filterMap abPayload).map
        (fun p => ((digitsVal p.1 : Int)))) (by simpa using hab),
      lastSet_le_one (((ls.filterMap headerOf).filterMap abPayload).map
        (fun p => ((digitsVal p.2 : Int)))) (by simpa using hab)]
  simp [lastSet, List.head?_map]

/-- C3, witness: a status text of four headers followed by an untracked
entry line parses to the expected BranchInfo, with the entry line as the
only remaining line. -/
theorem C3_witness :
    parse_branch_data (pySplitChar '\n'
        ("# branch.oid somehash\n# branch.head master\n" ++
         "# branch.upstream origin/master\n# branch.ab +12 -3\n" ++
         "? newfile.txt").toList) =
      .ok (["? newfile.txt".toList],
           { head := "master".toList,
             upstream := some "origin/master".toList,
             ahead := some 12, behind := some 3 }) :=
  C3_branch_headers
    [.header (.oid "somehash".toList), .header (.hd "master".toList),
     .header (.upstream "origin/master".toList),
     .header (.ab "12".toList "3".toList), .entry "? newfile.txt".toList]
    "master".toList (by decide) (by decide) (by decide) (by decide)

/-- C4: for every state a successful parse returns, the derived status is
Clean exactly when staged and unstaged are both empty, and Dirty exactly
otherwise. -/
theorem C4_status_clean_iff (s t : List Char) (r : GitRepo)
    (h : parse_git_status s t = .ok r) :
    (r.status = GitStatus.clean ↔ (r.staged = [] ∧ r.unstaged = [])) ∧
    (r.status = GitStatus.dirty ↔ ¬(r.staged = [] ∧ r.unstaged = [])) := by
  have hst := (parse_git_status_ok s t r h).2
  by_cases hc : r.staged = [] ∧ r.unstaged = []
  · rw [if_pos hc] at hst
    simp [hst, hc]
  · rw [if_neg hc] at hst
    simp [hst, hc]

/-- C4, witness: the clean-repository parse instantiates the
status-derivation equivalence. -/
theorem C4_witness :
    (GitStatus.clean = GitStatus.clean ↔
       (([] : List (List Char)) = [] ∧ ([] : List (List Char)) = [])) ∧
    (GitStatus.clean = GitStatus.dirty ↔
       ¬(([] : List (List Char)) = [] ∧ ([] : List (List Char)) = [])) :=
  C4_status_clean_iff "# branch.head m".toList "".toList
    ⟨⟨"m".toList, none, none, none⟩, [], [], [], [], 0, GitStatus.clean⟩ rfl

/-- C5, counterexample: with the directory present and both commands
succeeding but a status output with no branch.head header, the segment
invocation raises BranchParseError instead of yielding no fragments — the
parse failure propagates out of the render tick. -/
theorem C5_counterexample :
    gitSegmentCall ⟨true, 0, "".toList, 0, "".toList⟩ =
      .error PyError.branchParse := rfl

/-- C5 (amended): command-level failures (missing directory, positive
return code) yield no fragments, but when both commands succeed and parsing
raises, the exception propagates unchanged out of the segment
invocation. -/
theorem C5_parse_error_propagates (env : ProbeEnv) :
    (env.pathExists = false ∨ 0 < env.rc1 ∨ 0 < env.rc2 →
       gitSegmentCall env = .ok []) ∧
    (∀ e : PyError, env.pathExists = true → env.rc1 ≤ 0 → env.rc2 ≤ 0 →
       parse_git_status env.out1 env.out2 = .error e →
       gitSegmentCall env = .error e) := by
  constructor
  · intro hcond
    unfold gitSegmentCall git_from_path
    rcases hcond with h | h | h
    · rw [if_pos h]; rfl
    · by_cases hpe : env.pathExists = false
      · rw [if_pos hpe]; rfl
      · rw [if_neg hpe, if_pos h]; rfl
    · by_cases hpe : env.pathExists = false
      · rw [if_pos hpe]; rfl
      · rw [if_neg hpe]
        by_cases h1 : 0 < env.rc1
        · rw [if_pos h1]; rfl
        · rw [if_neg h1, if_pos h]; rfl
  · intro e hpe h1 h2 hparse
    unfold gitSegmentCall git_from_path
    rw [if_neg (by simp [hpe]), if_neg (by omega), if_neg (by omega), hparse]
    rfl

/-- C5, witness: a head-less one-line status output propagates
BranchParseError through the segment call. -/
theorem C5_witness :
    gitSegmentCall ⟨true, 0, "x".toList, 0, "".toList⟩ =
      .error PyError.branchParse :=
  (C5_parse_error_propagates ⟨true, 0, "x".toList, 0, "".toList⟩).2
    PyError.branchParse rfl (by decide) (by decide) rfl

/-- C6, counterexample: an entry line `1 x y` with only three whitespace
fields makes parse raise IndexError — parse does crash on lines of
unexpected shape, contrary to the claim. -/
theorem C6_counterexample :
    parse_git_status "# branch.head m\n1 x y".toList "".toList =
      .error PyError.indexErr := rfl

/-- C6 (amended): non-header lines that do not begin with '1', '?' or '!'
are passed through all three classification passes unchanged and contribute
to no bucket, and a header line with at least two space fields and an
unrecognized key leaves the branch scan unchanged; however parse is not
crash-free on lines of unexpected shape — an entry line with too few fields
raises IndexError (see the counterexample). -/
theorem C6_passthrough (lines : List (List Char))
    (h : ∀ l ∈ lines, startsWith '1' l = false ∧ startsWith '?' l = false ∧
           startsWith '!' l = false) :
    parse_staged_files_data lines = .ok (lines, [], []) ∧
    parse_untracked_files_data lines = .ok (lines, []) ∧
    parse_ignored_files_data lines = .ok (lines, []) ∧
    (∀ (st : BranchScan) (l : List Char), startsWith '#' l = true →
       unrecognizedKey l = true → branchLine st l = .ok st) :=
  ⟨staged_pass lines (fun l hl => (h l hl).1),
   untracked_pass lines (fun l hl => (h l hl).2.1),
   ignored_pass lines (fun l hl => (h l hl).2.2),
   fun st l hsh hk => branchLine_unrecognized st l hsh hk⟩

/-- C6, witness: an unclassifiable line passes through the staged pass and
an unknown branch key leaves the scan state unchanged. -/
theorem C6_witness :
    parse_staged_files_data ["junk line".toList] =
      .ok (["junk line".toList], [], []) ∧
    branchLine ⟨[], none, none, none, none⟩ "# branch.foo x".toList =
      .ok ⟨[], none, none, none, none⟩ := by
  have hc := C6_passthrough ["junk line".toList] (by decide)
  exact ⟨hc.1, hc.2.2.2 _ _ (by decide) (by decide)⟩

/-- C7, counterexample: for stash text "a" (one non-empty line, no trailing
newline) the code computes stashCount 0, while the claimed non-empty-line
count is 1. -/
theorem C7_counterexample :
    (parse_git_status "# branch.head m".toList "a".toList).map
      GitRepo.stashed = .ok 0 ∧
    specStashCount "a".toList = 1 := ⟨rfl, rfl⟩

/-- C7 (amended): the stash count of every successful parse equals the
number of newline characters in stashText (the split field count minus
one); this agrees with the non-empty-line count on newline-terminated
inputs such as "a\nb\nc\n" (3) and on "" (0), but not on inputs missing
the final newline. -/
theorem C7_stash_newline_count (s t : List Char) (r : GitRepo)
    (h : parse_git_status s t = .ok r) :
    r.stashed = t.count '\n' := by
  have h1 := (parse_git_status_ok s t r h).1
  rw [h1, pySplitChar_length]
  simp

/-- C7, witness: the spec's own example "a\nb\nc\n" yields stash count 3 =
its newline count. -/
theorem C7_witness :
    (⟨⟨"m".toList, none, none, none⟩, [], [], [], [], 3,
      GitStatus.clean⟩ : GitRepo).stashed =
      ("a\nb\nc\n".toList).count '\n' :=
  C7_stash_newline_count "# branch.head m".toList "a\nb\nc\n".toList
    ⟨⟨"m".toList, none, none, none⟩, [], [], [], [], 3, GitStatus.clean⟩ rfl

/-- C8, counterexample: the Dirty glyph fragment is "⨀ " with a trailing
space, not the bare "⨀" the claim states. -/
theorem C8_counterexample :
    (GitStatus.segment GitStatus.dirty).contents ≠ "⨀".toList ∧
    (GitStatus.segment GitStatus.dirty).contents = "⨀ ".toList :=
  ⟨by decide, rfl⟩

/-- C8 (amended): the status-glyph renderer is total over all four possible
status values (the three enum members plus any non-member value, which
reaches the final else): one fragment each, with text ✔ for Clean, "⨀ "
(glyph plus trailing space) for Dirty, ✘ for Broken and ⁉ for any other
value, each tagged with its status tag (the default tag sharing the clean
tag's value). -/
theorem C8_status_glyph_total :
    (GitStatus.segment GitStatus.clean).contents = "✔".toList ∧
    (GitStatus.segment GitStatus.clean).highlight_groups =
      ["git:branch_clean"] ∧
    (GitStatus.segment GitStatus.dirty).contents = "⨀ ".toList ∧
    (GitStatus.segment GitStatus.dirty).highlight_groups =
      ["git:branch_dirty"] ∧
    (GitStatus.segment GitStatus.broken).contents = "✘".toList ∧
    (GitStatus.segment GitStatus.broken).highlight_groups =
      ["git:branch_broken"] ∧
    (GitStatus.segment GitStatus.other).contents = "⁉".toList ∧
    (GitStatus.segment GitStatus.other).highlight_groups =
      ["git:branch_clean"] :=
  ⟨rfl, rfl, rfl, rfl, rfl, rfl, rfl, rfl⟩

/-- C9: the files_segment of the segments/tmux variant renders the staged
bucket twice — once as the glyphed count "⚫1" and again as the bare count
"1" with no glyph — because the `if self.staged` guard is duplicated; a
state with one staged file and nothing else renders "⚫1╱1" instead of one
entry per non-empty bucket. -/
theorem C9_files_segment_staged_twice :
    parse_git_status
        "# branch.head m\n1 M. N 100644 100644 100644 h1 h2 a.txt".toList
        "".toList =
      .ok ⟨⟨"m".toList, none, none, none⟩, ["a.txt".toList], [], [], [], 0,
           GitStatus.dirty⟩ ∧
    GitRepo.files_segment
        ⟨⟨"m".toList, none, none, none⟩, ["a.txt".toList], [], [], [], 0,
         GitStatus.dirty⟩ =
      some ⟨"⚫1╱1".toList, ["files:info"], some true⟩ :=
  ⟨rfl, rfl⟩

/-- C10, counterexample: with the directory present, a first-command return
code of -9 (nonzero) and parseable outputs, the probe returns a repository
state, not an absent result — the code only treats positive return codes as
failure. -/
theorem C10_counterexample :
    (git_from_path ⟨true, -9, "# branch.head m".toList, 0, "".toList⟩).map
      (fun o => o.isSome) = .ok true ∧
    (-9 : Int) ≠ 0 :=
  ⟨rfl, by decide⟩

/-- C10 (amended): the probe returns absent — without raising — exactly
when the directory does not exist or either command's return code is
positive; otherwise its result is exactly the parse result of the two
outputs (a state on success, a propagated parse exception otherwise). -/
theorem C10_probe_absent_iff (env : ProbeEnv) :
    (git_from_path env = .ok none ↔
      (env.pathExists = false ∨ 0 < env.rc1 ∨ 0 < env.rc2)) ∧
    (env.pathExists = true → env.rc1 ≤ 0 → env.rc2 ≤ 0 →
      git_from_path env = (parse_git_status env.out1 env.out2).map some) := by
  constructor
  · constructor
    · intro h
      by_contra hcon
      push_neg at hcon
      obtain ⟨hp, h1, h2⟩ := hcon
      unfold git_from_path at h
      rw [if_neg hp, if_neg (by omega), if_neg (by omega)] at h
      cases hparse : parse_git_status env.out1 env.out2 with
      | error e => rw [hparse] at h; simp [Except.map] at h
      | ok r => rw [hparse] at h; simp [Except.map] at h
    · intro hcond
      unfold git_from_path
      rcases hcond with h | h | h
      · rw [if_pos h]
      · by_cases hpe : env.pathExists = false
        · rw [if_pos hpe]
        · rw [if_neg hpe, if_pos h]
      · by_cases hpe : env.pathExists = false
        · rw [if_pos hpe]
        · rw [if_neg hpe]
          by_cases h1 : 0 < env.rc1
          · rw [if_pos h1]
          · rw [if_neg h1, if_pos h]
  · intro hp h1 h2
    unfold git_from_path
    rw [if_neg (by simp [hp]), if_neg (by omega), if_neg (by omega)]

/-- C10, witness: with both return codes nonpositive the probe result is
the parse result of the outputs. -/
theorem C10_witness :
    git_from_path ⟨true, 0, "# branch.head dev".toList, -3, "".toList⟩ =
      (parse_git_status "# branch.head dev".toList "".toList).map some :=
  (C10_probe_absent_iff
      ⟨true, 0, "# branch.head dev".toList, -3, "".toList⟩).2
    rfl (by decide) (by decide)
